import Mathlib

/-!
Verification of the passtally rules engine (piece geometry, board placement,
signal traversal, marker movement and turn execution) against its source.

The embedding follows the modular sources `src/piece.rs`, `src/board.rs` and
`src/game.rs` (the files the claims cite).  Machine integers are modelled as
`Nat` / `Int`: the `i8` coordinates of `BoardPosition` become `Int` (the only
arithmetic on them is adding an offset of 1, and every access is guarded by a
bounds check, so wrap-around never changes which check fires), and the `u32`
counters become `Nat` (they only ever grow by 1 per placement or turn, far
from 2^32).  Rotations are `Fin 4`: `PositionedPiece::positions` hits
`unreachable!` for any other value before a piece could ever be stored, so
every rotation the program manipulates is in 0..=3.
-/

/-- The four sides of a cell, `src/piece.rs` enum `Side` (Top=0, Right=1,
Bottom=2, Left=3). -/
inductive Side : Type where
  | Top : Side
  | Right : Side
  | Bottom : Side
  | Left : Side
deriving DecidableEq, Repr, Fintype

namespace Side

/-- Rust `Side::opposite`. -/
def opposite : Side → Side
  | Top => Bottom
  | Bottom => Top
  | Left => Right
  | Right => Left

/-- Numeric value of the side, mirroring the `repr(u8)` discriminants. -/
def toNat : Side → Nat
  | Top => 0
  | Right => 1
  | Bottom => 2
  | Left => 3

/-- Decode a discriminant modulo 4, mirroring `Side::try_from((v) % 4)`. -/
def ofNatMod (n : Nat) : Side :=
  match n % 4 with
  | 0 => Top
  | 1 => Right
  | 2 => Bottom
  | _ => Left

/-- Rust `Side::rotate`: clockwise rotation by n quarter turns, computed as
addition modulo 4 on the discriminant. -/
def rotate (s : Side) (n : Nat) : Side :=
  ofNatMod (s.toNat + n)

end Side

/-- The three pipe shapes of a single cell, `src/piece.rs` enum
`PartialPiece`. -/
inductive PartialPiece : Type where
  | TopBottom_LeftRight : PartialPiece
  | TopLeft_BottomRight : PartialPiece
  | TopRight_BottomLeft : PartialPiece
deriving DecidableEq, Repr, Fintype

/-- Rust `PartialPiece::pass`: the side the signal leaves from when it enters
at `side`. -/
def PartialPiece.pass : PartialPiece → Side → Side
  | .TopBottom_LeftRight, side => side.opposite
  | .TopLeft_BottomRight, .Top => .Left
  | .TopLeft_BottomRight, .Left => .Top
  | .TopLeft_BottomRight, .Bottom => .Right
  | .TopLeft_BottomRight, .Right => .Bottom
  | .TopRight_BottomLeft, .Top => .Right
  | .TopRight_BottomLeft, .Right => .Top
  | .TopRight_BottomLeft, .Bottom => .Left
  | .TopRight_BottomLeft, .Left => .Bottom

/-- Rust struct `RotatedPartialPiece` (a shape plus a clockwise rotation
amount 0..=3). -/
structure RotatedPartialPiece : Type where
  partial_piece : PartialPiece
  rotation : Fin 4
deriving DecidableEq, Repr

/-- Rust `RotatedPartialPiece::new`. -/
def RotatedPartialPiece.new (pp : PartialPiece) (r : Fin 4) : RotatedPartialPiece :=
  ⟨pp, r⟩

/-- Rust `RotatedPartialPiece::pass`: rotate the side into the local frame by
`4 - rotation`, pass through the unrotated shape, rotate back by `rotation`. -/
def RotatedPartialPiece.pass (rp : RotatedPartialPiece) (side : Side) : Side :=
  let local_side := side.rotate (4 - rp.rotation.val)
  let exit_side := rp.partial_piece.pass local_side
  exit_side.rotate rp.rotation.val

/-- C1: for every one of the 3 shapes and every side, pass is an involution,
and for every one of the 3 shapes, every rotation 0-3 and every side, the
rotated piece's pass is an involution (48 rotated cases). -/
theorem pass_involution :
    (∀ (pp : PartialPiece) (s : Side), pp.pass (pp.pass s) = s) ∧
    (∀ (pp : PartialPiece) (r : Fin 4) (s : Side),
      (RotatedPartialPiece.new pp r).pass ((RotatedPartialPiece.new pp r).pass s) = s) := by
  decide

/-- The six piece colors, `src/piece.rs` enum `Piece`. -/
inductive Piece : Type where
  | Red : Piece
  | Green : Piece
  | Yellow : Piece
  | Blue : Piece
  | Cyan : Piece
  | Pink : Piece
deriving DecidableEq, Repr

/-- Rust struct `BoardPosition` (`src/board.rs`): x and y are `i8`, modelled
as `Int`; 0,0 is top left, x horizontal, y vertical. -/
structure BoardPosition : Type where
  x : Int
  y : Int
deriving DecidableEq, Repr

/-- Rust `BoardPosition::new`. -/
def BoardPosition.new (x y : Int) : BoardPosition := ⟨x, y⟩

/-- Rust `BoardPosition::on_edge`. -/
def BoardPosition.on_edge (p : BoardPosition) : Prop :=
  p.x = 0 ∨ p.y = 0 ∨ p.x = 5 ∨ p.y = 5

instance (p : BoardPosition) : Decidable p.on_edge := by
  unfold BoardPosition.on_edge; infer_instance

/-- Rust `BoardPosition::valid`. -/
def BoardPosition.valid (p : BoardPosition) : Prop :=
  p.x ≤ 5 ∧ 0 ≤ p.x ∧ p.y ≤ 5 ∧ 0 ≤ p.y

instance (p : BoardPosition) : Decidable p.valid := by
  unfold BoardPosition.valid; infer_instance

/-- Componentwise addition, the `Add` impl for `BoardPosition`. -/
instance : Add BoardPosition :=
  ⟨fun a b => ⟨a.x + b.x, a.y + b.y⟩⟩

/-- Rust struct `PositionedPiece` (`src/piece.rs`). -/
structure PositionedPiece : Type where
  piece : Piece
  rotation : Fin 4
  position : BoardPosition

/-- Rust `PositionedPiece::positions`: the two cells the piece covers; the
second cell is offset right, down, left or up of `position` according to the
clockwise rotation. -/
def PositionedPiece.positions (p : PositionedPiece) : BoardPosition × BoardPosition :=
  let second_position :=
    match p.rotation with
    | 0 => p.position + BoardPosition.new 1 0
    | 1 => p.position + BoardPosition.new 0 1
    | 2 => p.position + BoardPosition.new (-1) 0
    | 3 => p.position + BoardPosition.new 0 (-1)
  (p.position, second_position)

/-- Rust `PositionedPiece::partial_pieces`: the fixed pair of shapes of each
color (A = TopBottom_LeftRight, B = TopLeft_BottomRight, C = TopRight_BottomLeft). -/
def PositionedPiece.partial_pieces (p : PositionedPiece) : PartialPiece × PartialPiece :=
  match p.piece with
  | .Red => (.TopBottom_LeftRight, .TopBottom_LeftRight)
  | .Green => (.TopLeft_BottomRight, .TopLeft_BottomRight)
  | .Yellow => (.TopRight_BottomLeft, .TopRight_BottomLeft)
  | .Blue => (.TopBottom_LeftRight, .TopLeft_BottomRight)
  | .Cyan => (.TopBottom_LeftRight, .TopRight_BottomLeft)
  | .Pink => (.TopRight_BottomLeft, .TopLeft_BottomRight)

/-- Rust `PositionedPiece::rotated_partial_pieces`. -/
def PositionedPiece.rotated_partial_pieces (p : PositionedPiece) :
    RotatedPartialPiece × RotatedPartialPiece :=
  let pair := p.partial_pieces
  (RotatedPartialPiece.new pair.1 p.rotation, RotatedPartialPiece.new pair.2 p.rotation)

/-- Rust enum `PasstallyError` (`src/game.rs`).  The `InvalidPosition` variant
carries the offending position, as it is constructed in
`Board::place_piece` (`src/board.rs` line 30). -/
inductive PasstallyError : Type where
  | InvalidPosition : BoardPosition → PasstallyError
  | BadHeight : PasstallyError
  | BadPiece : PasstallyError
  | NoPlayerMarker : PasstallyError
  | HasPlayerMarker : PasstallyError
  | TooFar : PasstallyError
deriving DecidableEq, Repr

/-- Pointwise update of a function, modelling in-place assignment to one slot
of a Rust array. -/
def upd {α β : Type} [DecidableEq α] (f : α → β) (a : α) (v : β) : α → β :=
  fun x => if x = a then v else f x

/-- Rust struct `Board` (`src/board.rs`).  The three 6 x 6 arrays are modelled
as total functions on positions; the Rust code only ever indexes them at
positions with both coordinates in 0..=5 (guarded by `valid` in
`place_piece`, and modelled by `top_piece_opt` in `enter`). -/
structure Board : Type where
  top_pieces : BoardPosition → RotatedPartialPiece
  tile_id : BoardPosition → Nat
  next_id : Nat
  height : BoardPosition → Nat

/-- Rust `Board::default`: every cell pipes straight through, ids 0,
heights 0, next id 1. -/
def Board.default : Board where
  top_pieces := fun _ => RotatedPartialPiece.new .TopBottom_LeftRight 0
  tile_id := fun _ => 0
  next_id := 1
  height := fun _ => 0

/-- Rust `Board::place_piece`.  A `&mut self` method returning
`Result<(), PasstallyError>`; modelled as returning the new board together
with `none` on success or `some e` on the error the method returns (every
`Err` early-return happens before any mutation, so the board component is
the untouched input there). -/
def Board.place_piece (b : Board) (piece : PositionedPiece) :
    Board × Option PasstallyError :=
  let pos1 := piece.positions.1
  let pos2 := piece.positions.2
  if ¬ pos1.valid then (b, some (.InvalidPosition pos1))
  else if ¬ pos2.valid then (b, some (.InvalidPosition pos2))
  else if b.height pos1 ≠ b.height pos2 then (b, some .BadHeight)
  else if b.tile_id pos1 ≠ 0 ∧ b.tile_id pos2 ≠ 0 ∧ b.tile_id pos1 = b.tile_id pos2 then
    (b, some .BadPiece)
  else
    let h1 := upd b.height pos1 (b.height pos1 + 1)
    let h2 := upd h1 pos2 (h1 pos2 + 1)
    let t1 := upd b.tile_id pos1 b.next_id
    let t2 := upd t1 pos2 b.next_id
    let pieces := piece.rotated_partial_pieces
    let tp1 := upd b.top_pieces pos1 pieces.1
    let tp2 := upd tp1 pos2 pieces.2
    ({ top_pieces := tp2, tile_id := t2, next_id := b.next_id + 1, height := h2 }, none)

/-- Guarded version of `Board::top_piece`: the Rust accessor indexes
`top_pieces[i.x as usize][i.y as usize]`, which panics (`none`) whenever a
coordinate is outside 0..=5. -/
def Board.top_piece_opt (b : Board) (i : BoardPosition) : Option RotatedPartialPiece :=
  if i.valid then some (b.top_pieces i) else none

/-- The position delta for each exit side, from the `match` in
`Board::enter`. -/
def delta_position : Side → BoardPosition
  | .Top => BoardPosition.new 0 (-1)
  | .Bottom => BoardPosition.new 0 1
  | .Left => BoardPosition.new (-1) 0
  | .Right => BoardPosition.new 1 0

/-- The loop of `Board::enter`, with explicit fuel.  `none` models either a
panicking out-of-bounds array access or fuel exhaustion; the termination
theorem below shows 200 units of fuel are never exhausted from a proper
edge entry. -/
def enter_loop (b : Board) (entry : BoardPosition) :
    Nat → BoardPosition → Side → Option BoardPosition
  | 0, _, _ => none
  | fuel + 1, pos, side =>
    if pos = entry ∨ ¬ pos.on_edge then
      match b.top_piece_opt pos with
      | none => none
      | some tile =>
        let exit_side := tile.pass side
        enter_loop b entry fuel (pos + delta_position exit_side) exit_side.opposite
    else some pos

/-- Rust `Board::enter`: trace a signal entering at `entry` from `side` until
it reaches an edge cell other than the entry cell.  Fuel 200 exceeds the
bound of 145 loop iterations established below. -/
def Board.enter (b : Board) (entry : BoardPosition) (side : Side) : Option BoardPosition :=
  enter_loop b entry 200 entry side

/-- C6: on the default board a signal entering at (2,0) from the top leaves
at (2,5), and one entering at (0,2) from the left leaves at (5,2). -/
theorem enter_default_board :
    Board.default.enter (BoardPosition.new 2 0) Side.Top = some (BoardPosition.new 2 5) ∧
    Board.default.enter (BoardPosition.new 0 2) Side.Left = some (BoardPosition.new 5 2) := by
  constructor <;> rfl

/-- The 6 x 6 height grid of a board as nested lists, outer index x, inner
index y, mirroring the `board.height` array the Rust test inspects. -/
def height_grid (b : Board) : List (List Nat) :=
  (List.range 6).map fun x => (List.range 6).map fun y =>
    b.height (BoardPosition.new x y)

/-- The board obtained from the default board after the three Pink placements
of the `place_pieces` test: (0,0) rotation 0, then (1,1) rotation 2, then
(0,0) rotation 1. -/
def three_pinks_board : Board :=
  (((Board.default.place_piece ⟨.Pink, 0, BoardPosition.new 0 0⟩).1.place_piece
      ⟨.Pink, 2, BoardPosition.new 1 1⟩).1.place_piece
      ⟨.Pink, 1, BoardPosition.new 0 0⟩).1

/-- C7: the three Pink placements at (0,0) rot 0, (1,1) rot 2 and (0,0) rot 1
all succeed, and the resulting height grid is 2,2 over 1,1 in the top left
corner and 0 elsewhere. -/
theorem three_pinks_heights :
    (Board.default.place_piece ⟨.Pink, 0, BoardPosition.new 0 0⟩).2 = none ∧
    ((Board.default.place_piece ⟨.Pink, 0, BoardPosition.new 0 0⟩).1.place_piece
        ⟨.Pink, 2, BoardPosition.new 1 1⟩).2 = none ∧
    (((Board.default.place_piece ⟨.Pink, 0, BoardPosition.new 0 0⟩).1.place_piece
        ⟨.Pink, 2, BoardPosition.new 1 1⟩).1.place_piece
        ⟨.Pink, 1, BoardPosition.new 0 0⟩).2 = none ∧
    height_grid three_pinks_board =
      [[2, 2, 0, 0, 0, 0], [1, 1, 0, 0, 0, 0], [0, 0, 0, 0, 0, 0],
       [0, 0, 0, 0, 0, 0], [0, 0, 0, 0, 0, 0], [0, 0, 0, 0, 0, 0]] := by
  refine ⟨rfl, rfl, rfl, ?_⟩
  rfl

namespace Passtally

/-- Rust enum `Action` (`src/game.rs`): place a piece, or move a player
marker between track slots (the two `u8` fields are modelled as `Nat`). -/
inductive Action : Type where
  | PlacePiece : PositionedPiece → Action
  | MovePlayerMarker : Nat → Nat → Action

/-- Rust struct `Turn`: a pair of actions. -/
structure Turn : Type where
  fst : Action
  snd : Action

/-- Rust struct `Game` (`src/game.rs`): the board, the 24 perimeter marker
slots (a total function on slot indices; only 0..=23 are ever read), the
player count, the round counter, and the three decks. -/
structure Game : Type where
  board : Board
  player_markers : Nat → Option Nat
  player_count : Nat
  round : Nat
  decks : List Piece × List Piece × List Piece

/-- Rust `Game::move_player_marker`.  The outer `Option` models the two
`assert!` statements: `none` is a panic, raised when `from` or `to` is
outside 0..=23 before anything is read or written.  Otherwise the result is
the new marker array together with `none` on success or the returned error
(all error returns happen before the mutation). -/
def Game.move_player_marker (m : Nat → Option Nat) (f t : Nat) :
    Option ((Nat → Option Nat) × Option PasstallyError) :=
  if ¬ (f ≤ 23) then none
  else if ¬ (t ≤ 23) then none
  else if m f = none then some (m, some .NoPlayerMarker)
  else if (m t).isSome then some (m, some .HasPlayerMarker)
  else
    let mn := min f t
    let mx := max f t
    let empty_spaces :=
      ((List.range' (mn + 1) (mx - (mn + 1))).filter fun i => (m i).isNone).length
    let valid_move :=
      if empty_spaces ≤ 1 then true
      else
        let empty_spaces2 :=
          (((List.range' (mx + 1) (mn + 24 - (mx + 1))).map fun v => v % 24).filter
            fun i => (m i).isNone).length
        decide (empty_spaces2 ≤ 1)
    if valid_move then some (upd (upd m f none) t (m f), none)
    else some (m, some .TooFar)

/-- Rust `Game::do_action`: dispatch an action against the game state.
`none` is a propagated panic from `move_player_marker`. -/
def Game.do_action (g : Game) : Action → Option (Game × Option PasstallyError)
  | .PlacePiece piece =>
    let r := g.board.place_piece piece
    some ({ g with board := r.1 }, r.2)
  | .MovePlayerMarker f t =>
    (Game.move_player_marker g.player_markers f t).map fun r =>
      ({ g with player_markers := r.1 }, r.2)

/-- Rust `Game::play_turn`: back up board and markers, run the two actions in
order short-circuiting on the first error, restore the backup and report the
error on failure, increment the round on success.  `none` is a propagated
panic. -/
def Game.play_turn (g : Game) : Turn → Option (Game × Option PasstallyError)
  | ⟨action1, action2⟩ =>
    let backup := (g.board, g.player_markers)
    match g.do_action action1 with
    | none => none
    | some (g1, some err) =>
      some ({ g1 with board := backup.1, player_markers := backup.2 }, some err)
    | some (g1, none) =>
      match g1.do_action action2 with
      | none => none
      | some (g2, some err) =>
        some ({ g2 with board := backup.1, player_markers := backup.2 }, some err)
      | some (g2, none) => some ({ g2 with round := g2.round + 1 }, none)

end Passtally

namespace Passtally

/-- The marker configuration of the spec example for C8: markers in all 24
slots except slots 5 and 17, which are empty. -/
def c8_markers : Nat → Option Nat :=
  fun i => if i = 5 ∨ i = 17 then none else some 0

/-- Counterexample to C8 as stated: with markers in every slot except 5 and
17, moving a marker from slot 0 to slot 4 does not succeed; slot 4 is
occupied, so the move fails with the marker-present error. -/
theorem c8_move_0_4_fails :
    (Game.move_player_marker c8_markers 0 4).map Prod.snd =
      some (some PasstallyError.HasPlayerMarker) ∧
    (Game.move_player_marker c8_markers 0 4).map Prod.snd ≠ some none := by
  exact ⟨rfl, by decide⟩

/-- C8 amended: with markers in every slot except 5 and 17, the moves from
slot 0 to slot 4 and from slot 0 to slot 10 both fail with the marker-present
error (their destinations are occupied, so the arc rule is never consulted),
while moving from slot 0 to the empty slot 5 succeeds (the ascending arc
between them has no empty slot strictly inside). -/
theorem c8_marker_moves :
    (Game.move_player_marker c8_markers 0 4).map Prod.snd =
      some (some PasstallyError.HasPlayerMarker) ∧
    (Game.move_player_marker c8_markers 0 10).map Prod.snd =
      some (some PasstallyError.HasPlayerMarker) ∧
    (Game.move_player_marker c8_markers 0 5).map Prod.snd = some none := by
  exact ⟨rfl, rfl, rfl⟩

/-- Any action leaves player count, round counter and decks untouched: a
`PlacePiece` only rewrites the board, a `MovePlayerMarker` only rewrites the
marker slots. -/
theorem do_action_preserves (g : Game) (a : Action) (g' : Game)
    (r : Option PasstallyError) (h : g.do_action a = some (g', r)) :
    g'.player_count = g.player_count ∧ g'.round = g.round ∧ g'.decks = g.decks := by
  cases a with
  | PlacePiece piece =>
    simp only [Game.do_action, Option.some.injEq, Prod.mk.injEq] at h
    rw [← h.1]
    exact ⟨rfl, rfl, rfl⟩
  | MovePlayerMarker f t =>
    simp only [Game.do_action] at h
    cases hm : Game.move_player_marker g.player_markers f t with
    | none => rw [hm] at h; simp at h
    | some r0 =>
      rw [hm] at h
      simp only [Option.map_some', Option.some.injEq, Prod.mk.injEq] at h
      rw [← h.1]
      exact ⟨rfl, rfl, rfl⟩

/-- Restoring the backed-up board and marker slots after an action restores
the whole game state, because actions touch nothing else. -/
theorem game_restore (g g' : Game) (h1 : g'.player_count = g.player_count)
    (h2 : g'.round = g.round) (h3 : g'.decks = g.decks) :
    ({ g' with board := g.board, player_markers := g.player_markers } : Game) = g := by
  cases g; cases g'; simp_all

/-- C2: play_turn applies the two actions as a unit.  If the first action
fails, or the first succeeds and the second fails, the resulting state is
exactly the pre-turn game (board, all 24 marker slots and the round counter
included) and the reported error is the first error encountered; if both
succeed the only extra change is the round counter incremented by one; a
panic in either action propagates. -/
theorem play_turn_atomic (g : Game) (a1 a2 : Action) :
    (g.play_turn ⟨a1, a2⟩ =
      match g.do_action a1 with
      | none => none
      | some (_, some err) => some (g, some err)
      | some (g1, none) =>
        match g1.do_action a2 with
        | none => none
        | some (_, some err) => some (g, some err)
        | some (g2, none) => some ({ g2 with round := g2.round + 1 }, none)) ∧
    ∀ gf, g.play_turn ⟨a1, a2⟩ = some (gf, none) → gf.round = g.round + 1 := by
  refine ⟨?_, ?_⟩
  on_goal 2 =>
    intro gf hf
    simp only [Game.play_turn] at hf
    cases h1 : g.do_action a1 with
    | none => rw [h1] at hf; simp at hf
    | some p1 =>
      obtain ⟨g1, r1⟩ := p1
      rw [h1] at hf
      cases r1 with
      | some err => dsimp only at hf; simp at hf
      | none =>
        dsimp only at hf
        cases h2 : g1.do_action a2 with
        | none => rw [h2] at hf; simp at hf
        | some p2 =>
          obtain ⟨g2, r2⟩ := p2
          rw [h2] at hf
          cases r2 with
          | some err => dsimp only at hf; simp at hf
          | none =>
            dsimp only at hf
            simp only [Option.some.injEq, Prod.mk.injEq, and_true] at hf
            have hp1 := do_action_preserves g a1 g1 none h1
            have hp2 := do_action_preserves g1 a2 g2 none h2
            rw [← hf]
            show g2.round + 1 = g.round + 1
            rw [hp2.2.1, hp1.2.1]
  simp only [Game.play_turn]
  cases h1 : g.do_action a1 with
  | none => rfl
  | some p1 =>
    obtain ⟨g1, r1⟩ := p1
    cases r1 with
    | some err =>
      have hp := do_action_preserves g a1 g1 (some err) h1
      dsimp only
      rw [game_restore g g1 hp.1 hp.2.1 hp.2.2]
    | none =>
      dsimp only
      cases h2 : g1.do_action a2 with
      | none => rfl
      | some p2 =>
        obtain ⟨g2, r2⟩ := p2
        cases r2 with
        | some err =>
          have hp1 := do_action_preserves g a1 g1 none h1
          have hp2 := do_action_preserves g1 a2 g2 (some err) h2
          dsimp only
          rw [game_restore g g2 (hp2.1.trans hp1.1) (hp2.2.1.trans hp1.2.1)
            (hp2.2.2.trans hp1.2.2)]
        | none => rfl

/-- C10: move_player_marker is only total for slot indices 0..=23.  For any
index above 23 it panics (models the two `assert!` statements) before
reading or changing anything, rather than returning one of the typed errors,
and the panic propagates through play_turn. -/
theorem move_player_marker_asserts (g : Game) (a2 : Action) (f t : Nat)
    (h : 23 < f ∨ 23 < t) :
    Game.move_player_marker g.player_markers f t = none ∧
    g.play_turn ⟨Action.MovePlayerMarker f t, a2⟩ = none := by
  have hm : Game.move_player_marker g.player_markers f t = none := by
    unfold Game.move_player_marker
    rcases h with h | h
    · rw [if_pos (by omega)]
    · by_cases hf : f ≤ 23
      · rw [if_neg (by omega), if_pos (by omega)]
      · rw [if_pos (by omega)]
  refine ⟨hm, ?_⟩
  simp [Game.play_turn, Game.do_action, hm]

/-- A concrete game used to witness the assertion theorem. -/
def c10_game : Game :=
  ⟨Board.default, fun _ => none, 2, 0, ([], [], [])⟩

/-- Witness for C10: slot index 24 is out of range, and both the marker move
and the whole turn panic on it. -/
theorem move_player_marker_asserts_witness :
    (23 < 24 ∨ 23 < (0 : Nat)) ∧
    Game.move_player_marker c10_game.player_markers 24 0 = none ∧
    c10_game.play_turn ⟨Action.MovePlayerMarker 24 0, Action.MovePlayerMarker 0 1⟩ = none := by
  have h := move_player_marker_asserts c10_game (Action.MovePlayerMarker 0 1) 24 0
    (Or.inl (by norm_num))
  exact ⟨Or.inl (by norm_num), h.1, h.2⟩

end Passtally

namespace Passtally

/-- A concrete mid-match game used to witness the turn theorem. -/
def c2_game : Game :=
  ⟨Board.default, fun _ => some 0, 2, 7, ([], [], [])⟩

/-- Witness for C2: a turn of two successful Pink placements on a fresh board
advances the round counter from 7 to 8. -/
theorem play_turn_atomic_witness :
    ((c2_game.play_turn ⟨Action.PlacePiece ⟨.Pink, 0, BoardPosition.new 0 0⟩,
        Action.PlacePiece ⟨.Pink, 2, BoardPosition.new 1 1⟩⟩).getD
      (c2_game, none)).1.round = c2_game.round + 1 :=
  (play_turn_atomic c2_game (Action.PlacePiece ⟨.Pink, 0, BoardPosition.new 0 0⟩)
    (Action.PlacePiece ⟨.Pink, 2, BoardPosition.new 1 1⟩)).2 _ rfl

end Passtally

/-- Position with both coordinates between 0 and 5, the wording the spec uses
for the placement bounds check. -/
def in_board_range (p : BoardPosition) : Prop :=
  0 ≤ p.x ∧ p.x ≤ 5 ∧ 0 ≤ p.y ∧ p.y ≤ 5

instance (p : BoardPosition) : Decidable (in_board_range p) := by
  unfold in_board_range; infer_instance

/-- The code's bounds check agrees with the spec's 0..=5 range. -/
theorem valid_iff_in_range (p : BoardPosition) : p.valid ↔ in_board_range p := by
  unfold BoardPosition.valid in_board_range; tauto

/-- The validation sequence of place_piece written from the spec's words:
first an invalid-position error naming the failing cell, then the height
mismatch, then the duplicate identifier rejection; `none` means the
placement is accepted. -/
def place_piece_spec_check (b : Board) (piece : PositionedPiece) : Option PasstallyError :=
  let c1 := piece.positions.1
  let c2 := piece.positions.2
  if ¬ in_board_range c1 then some (.InvalidPosition c1)
  else if ¬ in_board_range c2 then some (.InvalidPosition c2)
  else if b.height c1 ≠ b.height c2 then some .BadHeight
  else if b.tile_id c1 = b.tile_id c2 ∧ b.tile_id c1 ≠ 0 ∧ b.tile_id c2 ≠ 0 then
    some .BadPiece
  else none

/-- C3: place_piece validates in this fixed order with the first failure
winning; out-of-range cells are reported by an invalid-position error naming
the failing position (checking the first cell first), then unequal heights,
then equal non-zero tile identifiers; in all other cases (identifiers
differing, or one or both being 0) it succeeds. -/
theorem place_piece_validation (b : Board) (piece : PositionedPiece) :
    (b.place_piece piece).2 = place_piece_spec_check b piece := by
  unfold Board.place_piece place_piece_spec_check
  simp only [valid_iff_in_range]
  split_ifs <;> first | rfl | tauto

/-- Evaluating an updated array at the updated slot. -/
theorem upd_same {α β : Type} [DecidableEq α] (f : α → β) (a : α) (v : β) :
    upd f a v a = v := by
  simp [upd]

/-- Evaluating an updated array at any other slot. -/
theorem upd_ne {α β : Type} [DecidableEq α] (f : α → β) (a : α) (v : β) (x : α)
    (h : x ≠ a) : upd f a v x = f x := by
  simp [upd, h]

/-- Unfolding lemma for componentwise addition of positions. -/
theorem BoardPosition.add_def (a b : BoardPosition) : a + b = ⟨a.x + b.x, a.y + b.y⟩ := rfl

/-- The two cells of a positioned piece are always distinct: the second is
the first shifted by one cell. -/
theorem positions_ne (p : PositionedPiece) : p.positions.1 ≠ p.positions.2 := by
  obtain ⟨pc, r, pos⟩ := p
  intro h
  have hx := congrArg BoardPosition.x h
  have hy := congrArg BoardPosition.y h
  fin_cases r <;>
    simp only [PositionedPiece.positions, BoardPosition.add_def, BoardPosition.new] at hx hy <;>
    omega

/-- C9: place_piece is atomic.  If any validation step fails the board is
returned unchanged; on success exactly the two covered cells get their
height raised by one and are stamped with the pre-call next id, the id
counter advances by one, the two exposed routing tiles become the piece's
two rotated shapes (first shape on the first cell, second on the second),
and every other cell keeps its height, tile id and routing tile. -/
theorem place_piece_effect (b : Board) (p : PositionedPiece) :
    ((b.place_piece p).2.isSome → (b.place_piece p).1 = b) ∧
    ((b.place_piece p).2 = none →
      (b.place_piece p).1.height p.positions.1 = b.height p.positions.1 + 1 ∧
      (b.place_piece p).1.height p.positions.2 = b.height p.positions.2 + 1 ∧
      (b.place_piece p).1.tile_id p.positions.1 = b.next_id ∧
      (b.place_piece p).1.tile_id p.positions.2 = b.next_id ∧
      (b.place_piece p).1.next_id = b.next_id + 1 ∧
      (b.place_piece p).1.top_pieces p.positions.1 = p.rotated_partial_pieces.1 ∧
      (b.place_piece p).1.top_pieces p.positions.2 = p.rotated_partial_pieces.2 ∧
      ∀ q, q ≠ p.positions.1 → q ≠ p.positions.2 →
        (b.place_piece p).1.height q = b.height q ∧
        (b.place_piece p).1.tile_id q = b.tile_id q ∧
        (b.place_piece p).1.top_pieces q = b.top_pieces q) := by
  have hne := positions_ne p
  have hne2 := (positions_ne p).symm
  unfold Board.place_piece
  dsimp only
  split_ifs with h1 h2 h3 h4 <;>
    first
      | exact ⟨fun _ => rfl, fun h => by simp at h⟩
      | (refine ⟨fun h => by simp at h, fun _ =>
          ⟨?_, ?_, ?_, ?_, rfl, ?_, ?_, fun q hq1 hq2 => ⟨?_, ?_, ?_⟩⟩⟩ <;>
          simp_all [upd])

/-- Witness for C9: placing Pink at (0,0) rotation 0 on the default board
succeeds and advances the id counter from 1 to 2, stamping cell (0,0). -/
theorem place_piece_effect_witness :
    (Board.default.place_piece ⟨.Pink, 0, BoardPosition.new 0 0⟩).2 = none ∧
    (Board.default.place_piece ⟨.Pink, 0, BoardPosition.new 0 0⟩).1.next_id =
      Board.default.next_id + 1 ∧
    (Board.default.place_piece ⟨.Pink, 0, BoardPosition.new 0 0⟩).1.tile_id
      (BoardPosition.new 0 0) = Board.default.next_id := by
  have h := (place_piece_effect Board.default ⟨.Pink, 0, BoardPosition.new 0 0⟩).2 rfl
  exact ⟨rfl, h.2.2.2.2.1, h.2.2.1⟩

/-- Number of empty slots strictly between the endpoints on the ascending arc
of the 24-slot cycle, following the spec wording (strictly-between slots of
the arc from the smaller to the larger index). -/
def empty_between_inner (m : Nat → Option Nat) (f t : Nat) : Nat :=
  ((List.range 24).filter fun i => decide (min f t < i ∧ i < max f t) && (m i).isNone).length

/-- Number of empty slots strictly between the endpoints on the other arc of
the 24-slot cycle (the slots below the smaller or above the larger index). -/
def empty_between_outer (m : Nat → Option Nat) (f t : Nat) : Nat :=
  ((List.range 24).filter fun i => decide (i < min f t ∨ max f t < i) && (m i).isNone).length

/-- The code's ascending iteration from min+1 to max-1 counts exactly the
empty slots of the ascending arc. -/
theorem inner_count (m : Nat → Option Nat) (mn mx : Nat) (h : mn < mx) (hmx : mx ≤ 23) :
    ((List.range' (mn + 1) (mx - (mn + 1))).filter fun i => (m i).isNone).length =
    ((List.range 24).filter fun i => decide (mn < i ∧ i < mx) && (m i).isNone).length := by
  have h1 : List.range' 0 (mn + 1) ++ List.range' (mn + 1) (mx - (mn + 1)) =
      List.range' 0 mx := by
    have := List.range'_append_1 0 (mn + 1) (mx - (mn + 1))
    simpa [show mx - (mn + 1) + (mn + 1) = mx by omega] using this
  have h2 : List.range' 0 mx ++ List.range' mx (24 - mx) = List.range' 0 24 := by
    have := List.range'_append_1 0 mx (24 - mx)
    simpa [show 24 - mx + mx = 24 by omega] using this
  have hsplit : List.range 24 =
      (List.range' 0 (mn + 1) ++ List.range' (mn + 1) (mx - (mn + 1))) ++
        List.range' mx (24 - mx) := by
    rw [List.range_eq_range', ← h2, ← h1]
  rw [hsplit]
  rw [List.filter_append, List.filter_append, List.length_append, List.length_append]
  have hL : (List.range' 0 (mn + 1)).filter
      (fun i => decide (mn < i ∧ i < mx) && (m i).isNone) = [] := by
    rw [List.filter_eq_nil_iff]
    intro a ha
    rw [List.mem_range'_1] at ha
    simp only [Bool.and_eq_true, decide_eq_true_eq, not_and]
    intro hc
    omega
  have hR : (List.range' mx (24 - mx)).filter
      (fun i => decide (mn < i ∧ i < mx) && (m i).isNone) = [] := by
    rw [List.filter_eq_nil_iff]
    intro a ha
    rw [List.mem_range'_1] at ha
    simp only [Bool.and_eq_true, decide_eq_true_eq, not_and]
    intro hc
    omega
  have hM : (List.range' (mn + 1) (mx - (mn + 1))).filter
      (fun i => decide (mn < i ∧ i < mx) && (m i).isNone) =
      (List.range' (mn + 1) (mx - (mn + 1))).filter (fun i => (m i).isNone) := by
    apply List.filter_congr
    intro a ha
    rw [List.mem_range'_1] at ha
    have : mn < a ∧ a < mx := by omega
    simp [this]
  rw [hL, hR, hM]
  simp

/-- The code's wrapped iteration from max+1 to min+23 (indices reduced
modulo 24) counts exactly the empty slots of the other arc. -/
theorem outer_count (m : Nat → Option Nat) (mn mx : Nat) (h : mn < mx) (hmx : mx ≤ 23) :
    (((List.range' (mx + 1) (mn + 24 - (mx + 1))).map fun v => v % 24).filter
      (fun i => (m i).isNone)).length =
    ((List.range 24).filter fun i => decide (i < mn ∨ mx < i) && (m i).isNone).length := by
  have hlen : mn + 24 - (mx + 1) = mn + (23 - mx) := by omega
  have hsplit : List.range' (mx + 1) (mn + (23 - mx)) =
      List.range' (mx + 1) (23 - mx) ++ List.range' 24 mn := by
    have := List.range'_append_1 (mx + 1) (23 - mx) mn
    rw [show mx + 1 + (23 - mx) = 24 by omega] at this
    exact this.symm
  rw [hlen, hsplit, List.map_append]
  have hm1 : (List.range' (mx + 1) (23 - mx)).map (fun v => v % 24) =
      List.range' (mx + 1) (23 - mx) := by
    rw [List.map_congr_left (g := fun a => a), List.map_id']
    intro a ha
    rw [List.mem_range'_1] at ha
    exact Nat.mod_eq_of_lt (by omega)
  have hm2 : (List.range' 24 mn).map (fun v => v % 24) = List.range mn := by
    rw [List.range'_eq_map_range, List.map_map]
    rw [List.map_congr_left (g := fun a => a), List.map_id']
    intro a ha
    rw [List.mem_range] at ha
    show (24 + a) % 24 = a
    rw [Nat.add_comm, Nat.add_mod_right]
    exact Nat.mod_eq_of_lt (by omega)
  rw [hm1, hm2, List.filter_append, List.length_append]
  have g1 : List.range' 0 mn ++ List.range' mn (mx + 1 - mn) = List.range' 0 (mx + 1) := by
    have := List.range'_append_1 0 mn (mx + 1 - mn)
    simpa [show mx + 1 - mn + mn = mx + 1 by omega] using this
  have g2 : List.range' 0 (mx + 1) ++ List.range' (mx + 1) (23 - mx) = List.range' 0 24 := by
    have := List.range'_append_1 0 (mx + 1) (23 - mx)
    simpa [show 23 - mx + (mx + 1) = 24 by omega] using this
  have hsplit2 : List.range 24 =
      (List.range' 0 mn ++ List.range' mn (mx + 1 - mn)) ++ List.range' (mx + 1) (23 - mx) := by
    rw [List.range_eq_range', ← g2, ← g1]
  rw [hsplit2, List.filter_append, List.filter_append, List.length_append, List.length_append]
  have hA : (List.range' 0 mn).filter
      (fun i => decide (i < mn ∨ mx < i) && (m i).isNone) =
      (List.range' 0 mn).filter (fun i => (m i).isNone) := by
    apply List.filter_congr
    intro a ha
    rw [List.mem_range'_1] at ha
    have : a < mn ∨ mx < a := by omega
    simp [this]
  have hB : (List.range' mn (mx + 1 - mn)).filter
      (fun i => decide (i < mn ∨ mx < i) && (m i).isNone) = [] := by
    rw [List.filter_eq_nil_iff]
    intro a ha
    rw [List.mem_range'_1] at ha
    simp only [Bool.and_eq_true, decide_eq_true_eq, not_and]
    intro hc
    omega
  have hC : (List.range' (mx + 1) (23 - mx)).filter
      (fun i => decide (i < mn ∨ mx < i) && (m i).isNone) =
      (List.range' (mx + 1) (23 - mx)).filter (fun i => (m i).isNone) := by
    apply List.filter_congr
    intro a ha
    rw [List.mem_range'_1] at ha
    have : a < mn ∨ mx < a := by omega
    simp [this]
  rw [hA, hB, hC]
  rw [List.range_eq_range']
  simp [Nat.add_comm]

namespace Passtally

/-- C4: for slot indices in range, move_player_marker checks in order that
the source slot holds a marker and the destination slot is empty, then
succeeds exactly when at least one of the two arcs of the 24-slot cycle
between the two slots has at most one empty slot strictly between the
endpoints; on success the occupant moves from the source to the destination
and the source becomes empty. -/
theorem move_player_marker_rule (m : Nat → Option Nat) (f t : Nat)
    (hf : f ≤ 23) (ht : t ≤ 23) :
    Game.move_player_marker m f t =
      if m f = none then some (m, some .NoPlayerMarker)
      else if (m t).isSome then some (m, some .HasPlayerMarker)
      else if empty_between_inner m f t ≤ 1 ∨ empty_between_outer m f t ≤ 1 then
        some (upd (upd m f none) t (m f), none)
      else some (m, some .TooFar) := by
  unfold Game.move_player_marker
  rw [if_neg (by omega), if_neg (by omega)]
  by_cases h1 : m f = none
  · rw [if_pos h1, if_pos h1]
  rw [if_neg h1, if_neg h1]
  by_cases h2 : (m t).isSome
  · rw [if_pos h2, if_pos h2]
  rw [if_neg h2, if_neg h2]
  have hft : f ≠ t := by
    intro he
    exact h1 (by rw [he]; exact Option.not_isSome_iff_eq_none.mp h2)
  have hlt : min f t < max f t := min_lt_max.mpr hft
  have hmx : max f t ≤ 23 := max_le hf ht
  have hInner : ((List.range' (min f t + 1) (max f t - (min f t + 1))).filter
        fun i => (m i).isNone).length = empty_between_inner m f t :=
    inner_count m (min f t) (max f t) hlt hmx
  have hOuter : (((List.range' (max f t + 1) (min f t + 24 - (max f t + 1))).map
        fun v => v % 24).filter fun i => (m i).isNone).length =
      empty_between_outer m f t :=
    outer_count m (min f t) (max f t) hlt hmx
  dsimp only
  rw [hInner, hOuter]
  by_cases hA : empty_between_inner m f t ≤ 1
  · rw [if_pos hA, if_pos (Or.inl hA)]
    rfl
  · rw [if_neg hA]
    by_cases hB : empty_between_outer m f t ≤ 1
    · rw [if_pos (Or.inr hB), decide_eq_true hB]
      rfl
    · rw [decide_eq_false hB, if_neg (show ¬(empty_between_inner m f t ≤ 1 ∨
        empty_between_outer m f t ≤ 1) by tauto)]
      rfl

/-- A fully empty marker track, used to witness the marker-rule theorem. -/
def empty_markers : Nat → Option Nat := fun _ => none

/-- Witness for C4: on an empty track, moving from slot 0 to slot 1 fails
with the no-marker error. -/
theorem move_player_marker_rule_witness :
    (0 : Nat) ≤ 23 ∧ (1 : Nat) ≤ 23 ∧
    Game.move_player_marker empty_markers 0 1 =
      some (empty_markers, some .NoPlayerMarker) :=
  ⟨by norm_num, by norm_num,
    (move_player_marker_rule empty_markers 0 1 (by norm_num) (by norm_num)).trans (by rfl)⟩

end Passtally

/-- Boards reachable from the default board by successful placements. -/
inductive ReachableBoard : Board → Prop where
  | base : ReachableBoard Board.default
  | place (b : Board) (p : PositionedPiece) (b' : Board) :
      ReachableBoard b → b.place_piece p = (b', none) → ReachableBoard b'

/-- One step of the signal trace: pass through the tile of the current cell,
move one cell in the exit direction, and enter the next cell from the
opposite side.  Stated over the total `top_pieces` field; `enter_loop`
performs exactly this step whenever its guarded lookup succeeds. -/
def trace_step (b : Board) (s : BoardPosition × Side) : BoardPosition × Side :=
  let exit_side := (b.top_pieces s.1).pass s.2
  (s.1 + delta_position exit_side, exit_side.opposite)

/-- Reversal of a trace state: the same signal running backwards, entering
the adjacent cell through the shared face. -/
def trace_rev (s : BoardPosition × Side) : BoardPosition × Side :=
  (s.1 + delta_position s.2, s.2.opposite)

/-- Inverse of `trace_step`, used to show the step is injective. -/
def trace_back (b : Board) (s : BoardPosition × Side) : BoardPosition × Side :=
  let p := s.1 + delta_position s.2
  (p, (b.top_pieces p).pass s.2.opposite)

/-- Flipping a side twice is the identity. -/
theorem opposite_opposite (s : Side) : s.opposite.opposite = s := by
  cases s <;> rfl

/-- No side is its own opposite. -/
theorem opposite_ne (s : Side) : s.opposite ≠ s := by
  cases s <;> decide

/-- Flipping sides is injective. -/
theorem opposite_inj (a b : Side) (h : a.opposite = b.opposite) : a = b := by
  have := congrArg Side.opposite h
  rwa [opposite_opposite, opposite_opposite] at this

/-- Every rotated tile routes involutively (all 48 cases). -/
theorem rot_pass_pass (rp : RotatedPartialPiece) (s : Side) : rp.pass (rp.pass s) = s := by
  obtain ⟨pp, r⟩ := rp
  exact (by decide :
    ∀ (pp : PartialPiece) (r : Fin 4) (s : Side),
      (RotatedPartialPiece.mk pp r).pass ((RotatedPartialPiece.mk pp r).pass s) = s) pp r s

/-- No rotated tile routes a side back out of the same side. -/
theorem rot_pass_ne (rp : RotatedPartialPiece) (s : Side) : rp.pass s ≠ s := by
  obtain ⟨pp, r⟩ := rp
  exact (by decide :
    ∀ (pp : PartialPiece) (r : Fin 4) (s : Side),
      (RotatedPartialPiece.mk pp r).pass s ≠ s) pp r s

/-- Moving one cell toward a side and then toward its opposite returns to
the start. -/
theorem add_delta_opposite (q : BoardPosition) (e : Side) :
    q + delta_position e + delta_position e.opposite = q := by
  cases q
  cases e <;>
    simp [BoardPosition.add_def, delta_position, BoardPosition.new, Side.opposite]

/-- `trace_back` undoes `trace_step`. -/
theorem trace_back_step (b : Board) (s : BoardPosition × Side) :
    trace_back b (trace_step b s) = s := by
  obtain ⟨q, sd⟩ := s
  simp only [trace_step, trace_back]
  rw [add_delta_opposite, opposite_opposite, rot_pass_pass]

/-- The signal step is injective. -/
theorem trace_step_injective (b : Board) : Function.Injective (trace_step b) :=
  Function.LeftInverse.injective (g := trace_back b) (trace_back_step b)

/-- Reversal is an involution on trace states. -/
theorem trace_rev_rev (s : BoardPosition × Side) : trace_rev (trace_rev s) = s := by
  obtain ⟨q, sd⟩ := s
  simp only [trace_rev]
  rw [add_delta_opposite, opposite_opposite]

/-- No trace state is its own reversal. -/
theorem trace_rev_ne (s : BoardPosition × Side) : trace_rev s ≠ s := by
  obtain ⟨q, sd⟩ := s
  intro h
  exact opposite_ne sd (congrArg Prod.snd h)

/-- A step never equals the reversal of its own state: the tile would have
to route a side back out of itself. -/
theorem trace_step_ne_rev (b : Board) (s : BoardPosition × Side) :
    trace_step b s ≠ trace_rev s := by
  obtain ⟨q, sd⟩ := s
  intro h
  have h2 := congrArg Prod.snd h
  simp only [trace_step, trace_rev] at h2
  exact rot_pass_ne (b.top_pieces q) sd (opposite_inj _ _ h2)

/-- Reversal conjugates the step to its inverse: stepping, reversing and
stepping again lands on the reversal of the original state (because every
tile is an involution). -/
theorem step_rev_step (b : Board) (s : BoardPosition × Side) :
    trace_step b (trace_rev (trace_step b s)) = trace_rev s := by
  obtain ⟨q, sd⟩ := s
  simp only [trace_step, trace_rev]
  rw [add_delta_opposite, opposite_opposite, rot_pass_pass]

/-- A trace can never reach the reversal of its own starting state: the
palindromic orbit this would force has a middle state that is either a fixed
point of reversal or a state whose tile routes a side back out of itself,
and neither exists. -/
theorem no_palindrome (b : Board) (t0 : BoardPosition × Side) (k : Nat) (hk : 1 ≤ k)
    (h : (trace_step b)^[k] t0 = trace_rev t0) : False := by
  have H : ∀ n, n ≤ k → trace_rev ((trace_step b)^[n] t0) = (trace_step b)^[k - n] t0 := by
    intro n
    induction n with
    | zero =>
      intro _
      rw [Function.iterate_zero_apply, Nat.sub_zero, h]
    | succ n ih =>
      intro hn
      have ihn := ih (by omega)
      have key := step_rev_step b ((trace_step b)^[n] t0)
      rw [← Function.iterate_succ_apply' (trace_step b) n t0] at key
      rw [ihn] at key
      have hkn : k - n = (k - (n + 1)) + 1 := by omega
      rw [hkn, Function.iterate_succ_apply' (trace_step b) (k - (n + 1)) t0] at key
      exact trace_step_injective b key
  rcases Nat.even_or_odd k with hk2 | hk2
  · obtain ⟨m, hm⟩ := hk2
    have hmid := H m (by omega)
    rw [show k - m = m by omega] at hmid
    exact trace_rev_ne _ hmid
  · obtain ⟨m, hm⟩ := hk2
    have hmid := H (m + 1) (by omega)
    rw [show k - (m + 1) = m by omega] at hmid
    have h2 : (trace_step b)^[m + 1] t0 = trace_rev ((trace_step b)^[m] t0) := by
      rw [← hmid, trace_rev_rev]
    rw [Function.iterate_succ_apply'] at h2
    exact trace_step_ne_rev b _ h2

/-- The trace started at an entry cell never returns to the entry cell
carrying the side that would make it exit through the face it entered by:
that state is the reversal of the trace's second state. -/
theorem no_exit_outward (b : Board) (entry : BoardPosition) (s0 : Side) (n : Nat) :
    (trace_step b)^[n] (entry, s0) ≠ (entry, (b.top_pieces entry).pass s0) := by
  intro h
  cases n with
  | zero =>
    rw [Function.iterate_zero_apply] at h
    have h2 := congrArg Prod.snd h
    exact rot_pass_ne (b.top_pieces entry) s0 h2.symm
  | succ n =>
    have hrev : trace_rev (trace_step b (entry, s0)) = (entry, (b.top_pieces entry).pass s0) := by
      simp only [trace_step, trace_rev]
      rw [add_delta_opposite, opposite_opposite]
    rw [← hrev, Function.iterate_succ_apply] at h
    cases Nat.eq_zero_or_pos n with
    | inl h0 =>
      subst h0
      rw [Function.iterate_zero_apply] at h
      exact trace_rev_ne _ h.symm
    | inr hpos => exact no_palindrome b (trace_step b (entry, s0)) n hpos h

/-- An entry cell on the board edge that is not a corner, together with the
entry side directed inward (the cell's outward face). -/
def good_entry (entry : BoardPosition) (s0 : Side) : Prop :=
  (entry.y = 0 ∧ 1 ≤ entry.x ∧ entry.x ≤ 4 ∧ s0 = .Top) ∨
  (entry.y = 5 ∧ 1 ≤ entry.x ∧ entry.x ≤ 4 ∧ s0 = .Bottom) ∨
  (entry.x = 0 ∧ 1 ≤ entry.y ∧ entry.y ≤ 4 ∧ s0 = .Left) ∨
  (entry.x = 5 ∧ 1 ≤ entry.y ∧ entry.y ≤ 4 ∧ s0 = .Right)

instance (entry : BoardPosition) (s0 : Side) : Decidable (good_entry entry s0) := by
  unfold good_entry; infer_instance

/-- From any state the running loop processes (the entry cell, or an interior
cell), the next state is still on the board, provided the state is not the
one excluded by `no_exit_outward`. -/
theorem trace_step_valid (b : Board) (entry : BoardPosition) (s0 : Side)
    (hg : good_entry entry s0) (σ : BoardPosition × Side)
    (hcont : σ.1 = entry ∨ ¬ σ.1.on_edge) (hv : σ.1.valid)
    (hne : σ ≠ (entry, (b.top_pieces entry).pass s0)) :
    (trace_step b σ).1.valid := by
  obtain ⟨q, sd⟩ := σ
  simp only at hcont hv hne
  rcases hcont with hq | hq
  · subst hq
    have hexit : (b.top_pieces q).pass sd ≠ s0 := by
      intro he
      apply hne
      have h2 := congrArg ((b.top_pieces q).pass) he
      rw [rot_pass_pass] at h2
      rw [h2]
    show (q + delta_position ((b.top_pieces q).pass sd)).valid
    rcases hg with ⟨h1, h2, h3, h4⟩ | ⟨h1, h2, h3, h4⟩ | ⟨h1, h2, h3, h4⟩ | ⟨h1, h2, h3, h4⟩ <;>
      subst h4 <;>
      cases hE : (b.top_pieces q).pass sd <;>
      simp_all [delta_position, BoardPosition.add_def, BoardPosition.new,
        BoardPosition.valid] <;>
      omega
  · show (q + delta_position ((b.top_pieces q).pass sd)).valid
    cases hE : (b.top_pieces q).pass sd <;>
      simp_all [delta_position, BoardPosition.add_def, BoardPosition.new,
        BoardPosition.valid, BoardPosition.on_edge] <;>
      omega

/-- Running the fuel-based loop along the trace: if the trace keeps the loop
condition true for the first n states, all of them are on the board, and the
condition fails at state n, then the loop returns the position of state n. -/
theorem enter_loop_spec (b : Board) (entry : BoardPosition) :
    ∀ (n fuel : Nat) (σ : BoardPosition × Side), n < fuel →
    (∀ m, m < n → ((trace_step b)^[m] σ).1 = entry ∨ ¬ ((trace_step b)^[m] σ).1.on_edge) →
    (∀ m, m < n → ((trace_step b)^[m] σ).1.valid) →
    ¬ (((trace_step b)^[n] σ).1 = entry ∨ ¬ ((trace_step b)^[n] σ).1.on_edge) →
    enter_loop b entry fuel σ.1 σ.2 = some (((trace_step b)^[n] σ).1) := by
  intro n
  induction n with
  | zero =>
    intro fuel σ hfuel _ _ hstop
    rw [Function.iterate_zero_apply] at hstop ⊢
    cases fuel with
    | zero => omega
    | succ f =>
      simp only [enter_loop]
      rw [if_neg hstop]
  | succ n ih =>
    intro fuel σ hfuel hcont hval hstop
    cases fuel with
    | zero => omega
    | succ f =>
      have hc0 := hcont 0 (by omega)
      have hv0 := hval 0 (by omega)
      rw [Function.iterate_zero_apply] at hc0 hv0
      simp only [enter_loop]
      rw [if_pos hc0]
      have hlook : b.top_piece_opt σ.1 = some (b.top_pieces σ.1) := by
        unfold Board.top_piece_opt
        rw [if_pos hv0]
      rw [hlook]
      have hrec := ih f (trace_step b σ) (by omega)
        (fun m hm => by
          rw [← Function.iterate_succ_apply]
          exact hcont (m + 1) (by omega))
        (fun m hm => by
          rw [← Function.iterate_succ_apply]
          exact hval (m + 1) (by omega))
        (by
          rw [← Function.iterate_succ_apply]
          exact hstop)
      rw [Function.iterate_succ_apply]
      exact hrec

/-- Encoding of the four sides as indices, for the pigeonhole argument. -/
def side_idx : Side → Fin 4
  | .Top => 0
  | .Right => 1
  | .Bottom => 2
  | .Left => 3

/-- The side encoding is injective. -/
theorem side_idx_inj (a b : Side) (h : side_idx a = side_idx b) : a = b := by
  cases a <;> cases b <;> first | rfl | exact absurd h (by decide)

/-- Pairs of distinct coordinates are distinct positions. -/
theorem board_position_eq (p q : BoardPosition) (hx : p.x = q.x) (hy : p.y = q.y) :
    p = q := by
  cases p; cases q; simp_all

/-- C5 amended: on every board (reachable ones included), a signal entering
at a non-corner edge cell through its outward face stays within the 6 x 6
grid, the loop stops within the 200 units of fuel (at most 145 iterations
are possible), and it returns an on-board edge cell different from the entry
cell.  At corner entry cells the traversal can step off the board, see the
counterexample below. -/
theorem enter_from_edge_terminates (b : Board) (hb : ReachableBoard b)
    (entry : BoardPosition) (s0 : Side) (hg : good_entry entry s0) :
    ∃ p, b.enter entry s0 = some p ∧ p.valid ∧ p.on_edge ∧ p ≠ entry := by
  clear hb
  have hentry_valid : entry.valid := by
    rcases hg with ⟨h1, h2, h3, _⟩ | ⟨h1, h2, h3, _⟩ | ⟨h1, h2, h3, _⟩ | ⟨h1, h2, h3, _⟩ <;>
      exact ⟨by omega, by omega, by omega, by omega⟩
  have hO0 : (trace_step b)^[0] (entry, s0) = (entry, s0) := Function.iterate_zero_apply _ _
  -- all states are on the board while the loop condition keeps holding
  have hinv : ∀ n, (∀ m, m < n →
      ((trace_step b)^[m] (entry, s0)).1 = entry ∨
        ¬ ((trace_step b)^[m] (entry, s0)).1.on_edge) →
      ((trace_step b)^[n] (entry, s0)).1.valid := by
    intro n
    induction n with
    | zero => rw [hO0]; intro _; exact hentry_valid
    | succ n ih =>
      intro hc
      rw [Function.iterate_succ_apply']
      exact trace_step_valid b entry s0 hg _ (hc n (by omega))
        (ih fun m hm => hc m (by omega)) (no_exit_outward b entry s0 n)
  -- the loop condition must fail within 144 steps
  have hstop : ∃ n, n ≤ 144 ∧ ¬ (((trace_step b)^[n] (entry, s0)).1 = entry ∨
      ¬ ((trace_step b)^[n] (entry, s0)).1.on_edge) := by
    by_contra hno
    push_neg at hno
    have hvAll : ∀ n, n ≤ 144 → ((trace_step b)^[n] (entry, s0)).1.valid :=
      fun n hn => hinv n fun m hm => hno m (by omega)
    have henc : ∀ i : Fin 145,
        ((trace_step b)^[i.val] (entry, s0)).1.x.toNat < 6 ∧
        ((trace_step b)^[i.val] (entry, s0)).1.y.toNat < 6 := by
      intro i
      have hv := hvAll i.val (by omega)
      obtain ⟨a1, a2, a3, a4⟩ := hv
      constructor <;> omega
    obtain ⟨i, j, hij, heq⟩ := Fintype.exists_ne_map_eq_of_card_lt
      (fun i : Fin 145 =>
        ((⟨((trace_step b)^[i.val] (entry, s0)).1.x.toNat, (henc i).1⟩ : Fin 6),
         (⟨((trace_step b)^[i.val] (entry, s0)).1.y.toNat, (henc i).2⟩ : Fin 6),
         side_idx ((trace_step b)^[i.val] (entry, s0)).2))
      (by simp)
    simp only [Prod.mk.injEq, Fin.mk.injEq] at heq
    have hOij : (trace_step b)^[i.val] (entry, s0) = (trace_step b)^[j.val] (entry, s0) := by
      have hvi := hvAll i.val (by omega)
      have hvj := hvAll j.val (by omega)
      obtain ⟨b1, b2, b3, b4⟩ := hvi
      obtain ⟨c1, c2, c3, c4⟩ := hvj
      have hp := board_position_eq ((trace_step b)^[i.val] (entry, s0)).1
        ((trace_step b)^[j.val] (entry, s0)).1 (by omega) (by omega)
      exact Prod.ext hp (side_idx_inj _ _ heq.2.2)
    have key : ∀ u v : Nat, u < v → v ≤ 144 →
        (trace_step b)^[u] (entry, s0) = (trace_step b)^[v] (entry, s0) → False := by
      intro u v huv hv144 hOuv
      have hd : v = u + (v - u) := by omega
      have hcycle : (entry, s0) = (trace_step b)^[v - u] (entry, s0) := by
        apply Function.Injective.iterate (trace_step_injective b) u
        rw [← Function.iterate_add_apply, ← hd]
        exact hOuv
      obtain ⟨d', hd'⟩ : ∃ d', v - u = d' + 1 := ⟨v - u - 1, by omega⟩
      have hpred : trace_step b ((trace_step b)^[d'] (entry, s0)) = (entry, s0) := by
        rw [← Function.iterate_succ_apply' (trace_step b) d' (entry, s0),
          show d'.succ = v - u by omega]
        exact hcycle.symm
      have hvd : ((trace_step b)^[d'] (entry, s0)).1.valid := hvAll d' (by omega)
      have h1 := congrArg Prod.fst hpred
      have h2 := congrArg Prod.snd hpred
      simp only [trace_step] at h1 h2
      have hE : (b.top_pieces ((trace_step b)^[d'] (entry, s0)).1).pass
          ((trace_step b)^[d'] (entry, s0)).2 = s0.opposite := by
        have h3 := congrArg Side.opposite h2
        rwa [opposite_opposite] at h3
      rw [hE] at h1
      have hback := add_delta_opposite ((trace_step b)^[d'] (entry, s0)).1 s0.opposite
      rw [h1, opposite_opposite] at hback
      -- hback : entry + delta s0 = the processed state's position
      obtain ⟨v1, v2, v3, v4⟩ := hvd
      rw [← hback] at v1 v2 v3 v4
      rcases hg with ⟨g1, g2, g3, g4⟩ | ⟨g1, g2, g3, g4⟩ | ⟨g1, g2, g3, g4⟩ | ⟨g1, g2, g3, g4⟩ <;>
        subst g4 <;>
        simp only [delta_position, BoardPosition.add_def, BoardPosition.new] at v1 v2 v3 v4 <;>
        omega
    rcases lt_trichotomy i.val j.val with hlt | hmid | hgt
    · exact key i.val j.val hlt (by omega) hOij
    · exact hij (Fin.ext hmid)
    · exact key j.val i.val hgt (by omega) hOij.symm
  -- take the first stopping index and run the loop there
  have hexists : ∃ n, ¬ (((trace_step b)^[n] (entry, s0)).1 = entry ∨
      ¬ ((trace_step b)^[n] (entry, s0)).1.on_edge) := by
    obtain ⟨n0, _, hs⟩ := hstop
    exact ⟨n0, hs⟩
  have hTstop := Nat.find_spec hexists
  have hTmin : ∀ m, m < Nat.find hexists →
      (((trace_step b)^[m] (entry, s0)).1 = entry ∨
        ¬ ((trace_step b)^[m] (entry, s0)).1.on_edge) :=
    fun m hm => of_not_not (Nat.find_min hexists hm)
  have hT144 : Nat.find hexists ≤ 144 := by
    obtain ⟨n0, hn0, hs⟩ := hstop
    exact le_trans (Nat.find_min' hexists hs) hn0
  have hrun := enter_loop_spec b entry (Nat.find hexists) 200 (entry, s0)
    (by omega) hTmin (fun m hm => hinv m fun k hk => hTmin k (by omega)) hTstop
  have hTpos : ((trace_step b)^[Nat.find hexists] (entry, s0)).1 ≠ entry ∧
      ((trace_step b)^[Nat.find hexists] (entry, s0)).1.on_edge := by
    rcases not_or.mp hTstop with ⟨ha, hb2⟩
    exact ⟨ha, not_not.mp hb2⟩
  have hTvalid : ((trace_step b)^[Nat.find hexists] (entry, s0)).1.valid := by
    cases hTc : Nat.find hexists with
    | zero =>
      exfalso
      apply hTstop
      rw [hTc, hO0]
      exact Or.inl rfl
    | succ T' =>
      rw [Function.iterate_succ_apply']
      have hm' : ∀ k, k < T' → (((trace_step b)^[k] (entry, s0)).1 = entry ∨
          ¬ ((trace_step b)^[k] (entry, s0)).1.on_edge) :=
        fun k hk => hTmin k (by omega)
      exact trace_step_valid b entry s0 hg _ (hTmin T' (by omega)) (hinv T' hm')
        (no_exit_outward b entry s0 T')
  exact ⟨((trace_step b)^[Nat.find hexists] (entry, s0)).1, hrun, hTvalid,
    hTpos.2, hTpos.1⟩

/-- Witness for the amended C5: from the non-corner edge cell (2,0) entered
from the top, the default board's traversal returns an on-board edge cell
other than the entry. -/
theorem enter_from_edge_terminates_witness :
    ReachableBoard Board.default ∧ good_entry (BoardPosition.new 2 0) Side.Top ∧
    ∃ p, Board.default.enter (BoardPosition.new 2 0) Side.Top = some p ∧
      p.valid ∧ p.on_edge ∧ p ≠ BoardPosition.new 2 0 :=
  ⟨ReachableBoard.base, by decide,
    enter_from_edge_terminates Board.default ReachableBoard.base
      (BoardPosition.new 2 0) Side.Top (by decide)⟩

/-- The reachable board with a Green piece at (0,0)-(1,0): its corner tile
routes Top to Left. -/
def c5_corner_board : Board :=
  (Board.default.place_piece ⟨.Green, 0, BoardPosition.new 0 0⟩).1

/-- Counterexample to C5 as stated: on the reachable board with a Green piece
at (0,0), a signal entering the corner edge cell (0,0) from the top (an
inward-directed entry) leaves the 6 x 6 grid and the traversal returns
(-1,0), which is not a board cell, so enter does not return an edge cell of
the board. -/
theorem enter_corner_escapes :
    ReachableBoard c5_corner_board ∧
    (BoardPosition.new 0 0).on_edge ∧
    c5_corner_board.enter (BoardPosition.new 0 0) Side.Top =
      some (BoardPosition.new (-1) 0) ∧
    ¬ (BoardPosition.new (-1) 0).valid := by
  refine ⟨ReachableBoard.place Board.default ⟨.Green, 0, BoardPosition.new 0 0⟩
    c5_corner_board ReachableBoard.base rfl, by decide, ?_, by decide⟩
  rfl
